import Mathlib

/-!
Shallow embedding of the attendance dashboard core (`src/app.js`):
the CSV parser `parseCSV`, the aggregator `buildStudentsMap`, and the
today detector `computeTodayCounts`.  JS strings are modelled as
`List Char`, JS objects used as string-keyed maps as insertion-ordered
association lists, and JS numbers appearing in this code as `Nat`
(all involved quantities are non-negative counters) and `ℚ` for the
attendance fraction.
-/

set_option autoImplicit false

namespace Attendance

/-- JS strings are modelled as lists of characters. -/
abbrev Str := List Char

/-- The character class removed by `String.prototype.trim` (WhiteSpace and
LineTerminator code points). -/
def jsWhitespace (c : Char) : Bool :=
  c == ' ' || c == '\t' || c == '\n' || c == '\r' ||
  c.val == 0x0B || c.val == 0x0C || c.val == 0xA0 || c.val == 0x1680 ||
  (0x2000 ≤ c.val && c.val ≤ 0x200A) || c.val == 0x2028 || c.val == 0x2029 ||
  c.val == 0x202F || c.val == 0x205F || c.val == 0x3000 || c.val == 0xFEFF

/-- `s.trim()`: drop JS whitespace from both ends. -/
def jsTrim (l : Str) : Str :=
  ((l.dropWhile jsWhitespace).reverse.dropWhile jsWhitespace).reverse

/-- `toLowerCase` on the ASCII range (the code only compares the result
with the one-character string `"p"`). -/
def jsToLower (c : Char) : Char :=
  if 'A' ≤ c ∧ c ≤ 'Z' then Char.ofNat (c.toNat + 32) else c

/-- `text.split("\n")`: splitting a string on line feeds; an empty string
yields one empty piece, as in JS. -/
def splitLines : Str → List Str
  | [] => [[]]
  | c :: rest =>
    if c = '\n' then [] :: splitLines rest
    else
      match splitLines rest with
      | [] => [[c]]
      | l :: ls => (c :: l) :: ls

/-- The character loop of `parseCSV` over one line: state is the
`inQuotes` flag, the remaining characters, the current cell `cur`, and the
cells pushed so far.  Mirrors `src/app.js` lines 24–43: a quote toggles
quoted mode unless it is the first of a doubled quote inside quoted mode
(which emits one literal quote); a comma outside quotes ends the cell;
every other character is appended to `cur`; the final `cur` is pushed. -/
def parseLineAux : Bool → Str → Str → List Str → List Str
  | _, [], cur, row => row ++ [cur]
  | true, '"' :: '"' :: rest, cur, row => parseLineAux true rest (cur ++ ['"']) row
  | true, '"' :: rest, cur, row => parseLineAux false rest cur row
  | false, '"' :: rest, cur, row => parseLineAux true rest cur row
  | false, ',' :: rest, cur, row => parseLineAux false rest [] (row ++ [cur])
  | q, c :: rest, cur, row => parseLineAux q rest (cur ++ [c]) row

/-- Parse one (already trimmed, non-blank) line into its cells. -/
def parseLine (l : Str) : List Str :=
  parseLineAux false l [] []

/-- `parseCSV(text)` from `src/app.js`: strip carriage returns, split on
line feeds, and turn each line into a row of cells; a line that trims to
the empty string becomes an empty row, every other line is parsed from
its trimmed form (the source parses `line = lines[i].trim()`). -/
def parseCSV (text : Str) : List (List Str) :=
  (splitLines (text.filter (fun c => c != '\r'))).map
    (fun l =>
      let t := jsTrim l
      if t = [] then [] else parseLine t)

/-- Per-subject attendance record stored at `map[roll].subjects[subject]`. -/
structure Subj where
  classesHeld : Nat
  present : Nat
  absent : Nat
  presentByDate : List Nat
deriving DecidableEq, Repr

/-- The `totals` object on a student; `percent`/`status` are filled by the
final pass of `buildStudentsMap`. -/
structure Totals where
  classesHeld : Nat
  present : Nat
  absent : Nat
  percent : ℚ
  status : Str
deriving DecidableEq, Repr

/-- A student record in the merged map. -/
structure Student where
  name : Str
  roll : Str
  subjects : List (Str × Subj)
  totals : Totals
deriving DecidableEq, Repr

/-- Lookup in a JS object used as a map (`map[k]`). -/
def alookup {α : Type} (k : Str) : List (Str × α) → Option α
  | [] => none
  | (k', v) :: rest => if k' = k then some v else alookup k rest

/-- Assignment in a JS object used as a map (`map[k] = v`): overwrite in
place if the key exists, otherwise append (JS objects keep insertion
order for string keys). -/
def upsert {α : Type} (k : Str) (v : α) : List (Str × α) → List (Str × α)
  | [] => [(k, v)]
  | (k', v') :: rest => if k' = k then (k, v) :: rest else (k', v') :: upsert k v rest

/-- The per-row subject record built at `src/app.js` lines 110–126: one
entry per header date column (`classesHeld` of them), `1` when the cell
trims and lowercases to exactly `"p"`, else `0`; missing cells read as
the empty string via `row[c] || ""`. -/
def mkSubjRecord (classesHeld : Nat) (row : List Str) : Subj :=
  let presentByDate := (List.range classesHeld).map (fun i =>
    let val := jsTrim (row.getD (3 + i) [])
    if val.map jsToLower = ['p'] then 1 else 0)
  let presentTotal := presentByDate.count 1
  { classesHeld := classesHeld
    present := presentTotal
    absent := classesHeld - presentTotal
    presentByDate := presentByDate }

/-- The freshly created `totals` object (`src/app.js` line 105); the
`percent`/`status` fields do not exist yet in the source, modelled as
`0` and the empty string until the final pass fills them. -/
def freshTotals : Totals :=
  { classesHeld := 0, present := 0, absent := 0, percent := 0, status := [] }

/-- The student object a row operates on (`src/app.js` lines 104–108):
created on first sight of the roll (name defaulting to `"Unknown"`),
otherwise the existing one, its name refreshed only when the stored name
is empty and the incoming one is not. -/
def resolveStudent (roll name : Str) (m : List (Str × Student)) : Student :=
  match alookup roll m with
  | none =>
    { name := if name = [] then "Unknown".toList else name
      roll := roll
      subjects := []
      totals := freshTotals }
  | some st => if st.name = [] ∧ name ≠ [] then { st with name := name } else st

/-- Lines 121–129 of `src/app.js`: overwrite `subjects[subject]` with the
row's record and fold its fields additively into `totals`. -/
def addSubjectRecord (subject : Str) (srec : Subj) (st : Student) : Student :=
  { st with
    subjects := upsert subject srec st.subjects
    totals :=
      { st.totals with
        classesHeld := st.totals.classesHeld + srec.classesHeld
        present := st.totals.present + srec.present
        absent := st.totals.absent + srec.absent } }

/-- Processing of one data row (`src/app.js` lines 99–130): trim name and
roll, skip the row when the roll is empty, then store the updated student
back under its roll. -/
def processRow (subject : Str) (classesHeld : Nat)
    (m : List (Str × Student)) (row : List Str) : List (Str × Student) :=
  let roll := jsTrim (row.getD 2 [])
  if roll = [] then m
  else
    upsert roll
      (addSubjectRecord subject (mkSubjRecord classesHeld row)
        (resolveStudent roll (jsTrim (row.getD 1 [])) m)) m

/-- Processing of one sheet (`src/app.js` lines 88–131): skip an empty
row list, read `classesHeld = max(0, header.length - 3)` from the header
(truncated subtraction on `Nat`), fold the processing of each data row. -/
def processSheet (m : List (Str × Student)) (sheet : Str × List (List Str)) :
    List (Str × Student) :=
  match sheet.2 with
  | [] => m
  | header :: dataRows => dataRows.foldl (processRow sheet.1 (header.length - 3)) m

/-- The final pass of `buildStudentsMap` (`src/app.js` lines 134–138):
`percent = classesHeld > 0 ? present / classesHeld : 0` and
`status = percent >= 0.75 ? "Good" : "Needs Improvement"`. -/
def finalizeStudent (st : Student) : Student :=
  let t := st.totals
  let percent : ℚ := if t.classesHeld > 0 then (t.present : ℚ) / (t.classesHeld : ℚ) else 0
  let status : Str :=
    if percent ≥ 3 / 4 then "Good".toList else "Needs Improvement".toList
  { st with totals := { t with percent := percent, status := status } }

/-- `buildStudentsMap(sheets)` (`src/app.js` lines 83–141), minus the
`subjectLastColIndex` side table which `computeTodayCounts` never reads. -/
def buildStudentsMap (sheets : List (Str × List (List Str))) : List (Str × Student) :=
  (sheets.foldl processSheet []).map (fun p => (p.1, finalizeStudent p.2))

/-- Today's present/absent/unknown counters. -/
structure TodayCounts where
  present : Nat
  absent : Nat
  unknown : Nat
deriving DecidableEq, Repr

/-- The subject loop of `computeTodayCounts` for one student
(`src/app.js` lines 151–163): returns the final
`(anySubjectWithDate, anyPresent)` pair, breaking as soon as a subject
whose `presentByDate` is non-empty has last entry `1`. -/
def todayLoop : List (Str × Subj) → Bool → Bool × Bool
  | [], anyDate => (anyDate, false)
  | (_, s) :: rest, anyDate =>
    if 1 ≤ s.presentByDate.length then
      if s.presentByDate.getLastD 0 = 1 then (true, true)
      else todayLoop rest true
    else todayLoop rest anyDate

/-- The per-student classification step of `computeTodayCounts`
(`src/app.js` lines 164–166). -/
def classifyToday (acc : TodayCounts) (st : Student) : TodayCounts :=
  let r := todayLoop st.subjects false
  if r.1 = false then { acc with unknown := acc.unknown + 1 }
  else if r.2 = true then { acc with present := acc.present + 1 }
  else { acc with absent := acc.absent + 1 }

/-- `computeTodayCounts(map)` (`src/app.js` lines 144–169). -/
def computeTodayCounts (m : List (Str × Student)) : TodayCounts :=
  m.foldl (fun acc p => classifyToday acc p.2) ⟨0, 0, 0⟩

/-! ### Specification-side comparison definitions

The following definitions restate parts of the spec in direct form; the
theorems below compare them with the source-derived functions above. -/

/-- Plain comma splitting of a line, from the spec's words: each field is
exactly the character sequence between separators. -/
def splitCommaSpec : Str → List Str
  | [] => [[]]
  | c :: rest =>
    if c = ',' then [] :: splitCommaSpec rest
    else
      match splitCommaSpec rest with
      | [] => [[c]]
      | f :: fs => (c :: f) :: fs

/-- Prepend `cur` onto the first piece of a field list (helper describing
the parser state: `cur` holds the partially accumulated first field). -/
def consHead (cur : Str) : List Str → List Str
  | [] => [cur]
  | f :: fs => (cur ++ f) :: fs

/-- `fields.join(",")`, the joining inverse used by the round-trip
property. -/
def joinComma : List Str → Str
  | [] => []
  | [f] => f
  | f :: g :: rest => f ++ ',' :: joinComma (g :: rest)

/-- The name a data row carries: the trimmed field at index 1, defaulting
to `"Unknown"` when that is empty (spec: name resolution at creation). -/
def rowName (row : List Str) : Str :=
  let n := jsTrim (row.getD 1 [])
  if n = [] then "Unknown".toList else n

/-- The name carried by the first data row of `rows` whose trimmed roll
field equals `r`. -/
def firstNameInRows (r : Str) : List (List Str) → Option Str
  | [] => none
  | row :: rest =>
    if jsTrim (row.getD 2 []) = r then some (rowName row)
    else firstNameInRows r rest

/-- The name carried by the first data row across all sheets (in
processing order) whose trimmed roll field equals `r`; a sheet with no
rows has no data rows. -/
def firstNameInSheets (r : Str) : List (Str × List (List Str)) → Option Str
  | [] => none
  | sh :: rest =>
    match sh.2 with
    | [] => firstNameInSheets r rest
    | _ :: dataRows =>
      match firstNameInRows r dataRows with
      | some n => some n
      | none => firstNameInSheets r rest

/-- Sum of `classesHeld` over a subjects mapping. -/
def subjectsClassesHeldSum (l : List (Str × Subj)) : Nat :=
  (l.map (fun p => p.2.classesHeld)).sum

/-- Sum of `present` over a subjects mapping. -/
def subjectsPresentSum (l : List (Str × Subj)) : Nat :=
  (l.map (fun p => p.2.present)).sum

/-- Sum of `absent` over a subjects mapping. -/
def subjectsAbsentSum (l : List (Str × Subj)) : Nat :=
  (l.map (fun p => p.2.absent)).sum

/-- Spec predicate: this subject record has a date column and its last
`presentByDate` entry is `1`. -/
def subjLastPresent (s : Subj) : Bool :=
  s.presentByDate.getLast? == some 1

/-- Spec predicate: this subject record has at least one date column. -/
def subjHasDate (s : Subj) : Bool :=
  !s.presentByDate.isEmpty

/-- Spec predicate: some subject record of the student has non-empty
`presentByDate` with last element `1`. -/
def todayPresent (st : Student) : Bool :=
  st.subjects.any (fun q => subjLastPresent q.2)

/-- Spec predicate: some subject record of the student has a non-empty
`presentByDate`. -/
def todayHasDate (st : Student) : Bool :=
  st.subjects.any (fun q => subjHasDate q.2)

/-- The C1 invariant on one student: totals balance, and every stored
subject record balances and has one `presentByDate` entry per class
held. -/
def studentInvariant (st : Student) : Prop :=
  st.totals.present + st.totals.absent = st.totals.classesHeld ∧
  ∀ q ∈ st.subjects, q.2.present + q.2.absent = q.2.classesHeld ∧
    q.2.presentByDate.length = q.2.classesHeld

/-- The C2 property on one student: each `totals` counter is the sum of
the corresponding field over the final subjects mapping. -/
def totalsMatchSubjects (st : Student) : Prop :=
  st.totals.classesHeld = subjectsClassesHeldSum st.subjects ∧
  st.totals.present = subjectsPresentSum st.subjects ∧
  st.totals.absent = subjectsAbsentSum st.subjects

/-- The non-empty trimmed rolls of a list of rows, in order. -/
def rowRolls (rows : List (List Str)) : List Str :=
  rows.filterMap (fun row =>
    if jsTrim (row.getD 2 []) = [] then none else some (jsTrim (row.getD 2 [])))

/-- The non-empty trimmed rolls of the data rows of a sheet (everything
after the header row). -/
def dataRolls (rows : List (List Str)) : List Str :=
  rowRolls (rows.drop 1)

/-! ## Parser lemmas -/

theorem splitCommaSpec_ne_nil (l : Str) : splitCommaSpec l ≠ [] := by
  match l with
  | [] => simp [splitCommaSpec]
  | c :: rest =>
    rw [splitCommaSpec]
    split
    · simp
    · split <;> simp

theorem consHead_nil {l : List Str} (h : l ≠ []) : consHead [] l = l := by
  match l with
  | [] => exact absurd rfl h
  | f :: fs => simp [consHead]

theorem parseLineAux_no_quote (l : Str) :
    ∀ (cur : Str) (row : List Str), (∀ c ∈ l, c ≠ '"') →
      parseLineAux false l cur row = row ++ consHead cur (splitCommaSpec l) := by
  induction l with
  | nil => intro cur row _; simp [parseLineAux, splitCommaSpec, consHead]
  | cons c rest ih =>
    intro cur row h
    have hc : c ≠ '"' := h c (List.mem_cons_self c rest)
    have hrest : ∀ d ∈ rest, d ≠ '"' := fun d hd => h d (List.mem_cons_of_mem c hd)
    by_cases hcomma : c = ','
    · subst hcomma
      have step : parseLineAux false (',' :: rest) cur row
          = parseLineAux false rest [] (row ++ [cur]) := rfl
      rw [step, ih [] (row ++ [cur]) hrest]
      rw [consHead_nil (splitCommaSpec_ne_nil rest)]
      have hsplit : splitCommaSpec (',' :: rest) = [] :: splitCommaSpec rest := by
        rw [splitCommaSpec]; simp
      rw [hsplit]
      simp [consHead]
    · have step : parseLineAux false (c :: rest) cur row
          = parseLineAux false rest (cur ++ [c]) row := by
        simp [parseLineAux, hc, hcomma]
      rw [step, ih (cur ++ [c]) row hrest]
      obtain ⟨f, fs, hffs⟩ : ∃ f fs, splitCommaSpec rest = f :: fs := by
        match hrec : splitCommaSpec rest with
        | [] => exact absurd hrec (splitCommaSpec_ne_nil rest)
        | f :: fs => exact ⟨f, fs, rfl⟩
      have hsplit : splitCommaSpec (c :: rest) = (c :: f) :: fs := by
        rw [splitCommaSpec]; simp [hcomma, hffs]
      rw [hffs, hsplit]
      simp [consHead]

theorem splitCommaSpec_no_comma (l : Str) (h : ∀ c ∈ l, c ≠ ',') :
    splitCommaSpec l = [l] := by
  induction l with
  | nil => rfl
  | cons c rest ih =>
    have hc : c ≠ ',' := h c (List.mem_cons_self c rest)
    have hrest := ih (fun d hd => h d (List.mem_cons_of_mem c hd))
    rw [splitCommaSpec]
    simp [hc, hrest]

theorem splitCommaSpec_append (f t : Str) (h : ∀ c ∈ f, c ≠ ',') :
    splitCommaSpec (f ++ ',' :: t) = f :: splitCommaSpec t := by
  induction f with
  | nil => rw [List.nil_append, splitCommaSpec]; simp
  | cons c rest ih =>
    have hc : c ≠ ',' := h c (List.mem_cons_self c rest)
    have hrest := ih (fun d hd => h d (List.mem_cons_of_mem c hd))
    rw [List.cons_append, splitCommaSpec]
    simp [hc, hrest]

theorem splitCommaSpec_joinComma (fields : List Str) (hne : fields ≠ [])
    (h : ∀ f ∈ fields, ∀ c ∈ f, c ≠ ',') :
    splitCommaSpec (joinComma fields) = fields := by
  induction fields with
  | nil => exact absurd rfl hne
  | cons f rest ih =>
    match rest with
    | [] =>
      exact splitCommaSpec_no_comma f (h f (List.mem_cons_self f []))
    | g :: rest' =>
      have hjoin : joinComma (f :: g :: rest') = f ++ ',' :: joinComma (g :: rest') := rfl
      rw [hjoin, splitCommaSpec_append f _ (h f (List.mem_cons_self f _))]
      rw [ih (by simp) (fun f' hf' => h f' (List.mem_cons_of_mem f hf'))]

theorem mem_joinComma {c : Char} {fields : List Str} (h : c ∈ joinComma fields) :
    c = ',' ∨ ∃ f ∈ fields, c ∈ f := by
  induction fields with
  | nil => simp [joinComma] at h
  | cons f rest ih =>
    match rest with
    | [] => exact Or.inr ⟨f, by simp, h⟩
    | g :: rest' =>
      have hjoin : joinComma (f :: g :: rest') = f ++ ',' :: joinComma (g :: rest') := rfl
      rw [hjoin] at h
      rcases List.mem_append.mp h with hf | hf
      · exact Or.inr ⟨f, by simp, hf⟩
      · rcases List.mem_cons.mp hf with hc | hc
        · exact Or.inl hc
        · rcases ih hc with hc' | ⟨f', hf', hcf'⟩
          · exact Or.inl hc'
          · exact Or.inr ⟨f', List.mem_cons_of_mem f hf', hcf'⟩

theorem splitLines_no_newline (l : Str) (h : ∀ c ∈ l, c ≠ '\n') :
    splitLines l = [l] := by
  induction l with
  | nil => rfl
  | cons c rest ih =>
    have hc : c ≠ '\n' := h c (List.mem_cons_self c rest)
    have hrest := ih (fun d hd => h d (List.mem_cons_of_mem c hd))
    rw [splitLines]
    simp [hc, hrest]

theorem jsTrim_sublist (l : Str) : List.Sublist (jsTrim l) l := by
  have h1 : List.Sublist (l.dropWhile jsWhitespace) l := List.dropWhile_sublist jsWhitespace
  have h2 : List.Sublist ((l.dropWhile jsWhitespace).reverse.dropWhile jsWhitespace)
      (l.dropWhile jsWhitespace).reverse := List.dropWhile_sublist jsWhitespace
  have h3 := h2.reverse
  rw [List.reverse_reverse] at h3
  exact h3.trans h1

/-- Parsing a single physical line (no line feeds, no carriage returns):
`parseCSV` first trims the whole line, then splits the trimmed line. -/
theorem parseCSV_single_line (l : Str)
    (hq : ∀ c ∈ l, c ≠ '"') (hn : ∀ c ∈ l, c ≠ '\n') (hr : ∀ c ∈ l, c ≠ '\r')
    (ht : jsTrim l ≠ []) :
    parseCSV l = [splitCommaSpec (jsTrim l)] := by
  have hfilter : l.filter (fun c => c != '\r') = l :=
    List.filter_eq_self.mpr (fun c hc => by simpa using hr c hc)
  have hq' : ∀ c ∈ jsTrim l, c ≠ '"' := fun c hc => hq c ((jsTrim_sublist l).mem hc)
  rw [parseCSV, hfilter, splitLines_no_newline l hn]
  simp only [List.map_cons, List.map_nil]
  rw [if_neg ht]
  rw [parseLine, parseLineAux_no_quote (jsTrim l) [] [] hq']
  rw [consHead_nil (splitCommaSpec_ne_nil _), List.nil_append]

/-- C4: `parseCSV` does NOT preserve field-edge whitespace at the ends of
a line: the whole line is trimmed before it is split, so the leading
whitespace of the first field and the trailing whitespace of the last
field are removed.  On `" a,b "` the claim predicts fields `" a"` and
`"b "`, but the code yields `"a"` and `"b"`. -/
theorem parseCSV_trims_line_ends :
    parseCSV (" a,b ".toList) = [["a".toList, "b".toList]] ∧
    parseCSV (" a,b ".toList) ≠ [[" a".toList, "b ".toList]] := by
  constructor
  · decide
  · decide

/-- C4 (amended): for a quote-free single physical line, the fields are
exactly the character sequences between the commas of the **trimmed**
line — interior whitespace next to separators is preserved, only the two
ends of the whole line are trimmed. -/
theorem parseCSV_no_field_trim (l : Str)
    (h : ∀ c ∈ l, c ≠ '"' ∧ c ≠ '\n' ∧ c ≠ '\r')
    (ht : jsTrim l ≠ []) :
    parseCSV l = [splitCommaSpec (jsTrim l)] :=
  parseCSV_single_line l (fun c hc => (h c hc).1) (fun c hc => (h c hc).2.1)
    (fun c hc => (h c hc).2.2) ht

/-- Witness for the amended C4: an interior field keeps its surrounding
whitespace (`"x, y ,z"` parses to fields `"x"`, `" y "`, `"z"`). -/
theorem parseCSV_no_field_trim_witness :
    parseCSV ("x, y ,z".toList) = [["x".toList, " y ".toList, "z".toList]] ∧
    parseCSV ("x, y ,z".toList) = [splitCommaSpec (jsTrim ("x, y ,z".toList))] := by
  refine ⟨by decide, parseCSV_no_field_trim ("x, y ,z".toList) (by decide) (by decide)⟩

/-- C8: the round-trip fails as stated.  Three inputs allowed by the
claim break it: a single empty field (the blank line turns into a
zero-field row), a field with leading whitespace (trimmed away by the
line trim), and a field containing a line feed (split into two rows). -/
theorem parseCSV_roundtrip_fails :
    parseCSV (joinComma [[]]) ≠ [[([] : Str)]] ∧
    parseCSV (joinComma [" a".toList]) ≠ [[" a".toList]] ∧
    parseCSV (joinComma ["a\nb".toList]) ≠ [["a\nb".toList]] := by
  refine ⟨by decide, by decide, by decide⟩

/-- C8 (amended): for a non-empty list of fields none of which contains a
comma, a double quote, a line feed or a carriage return, and whose
comma-join is non-empty and unchanged by trimming (no whitespace at the
two ends of the joined line), `parseCSV` of the join is exactly one row
holding the original fields. -/
theorem parseCSV_roundtrip (fields : List Str) (hne : fields ≠ [])
    (hchars : ∀ f ∈ fields, ∀ c ∈ f, c ≠ ',' ∧ c ≠ '"' ∧ c ≠ '\n' ∧ c ≠ '\r')
    (htrim : jsTrim (joinComma fields) = joinComma fields)
    (hjoin : joinComma fields ≠ []) :
    parseCSV (joinComma fields) = [fields] := by
  have hchar : ∀ c ∈ joinComma fields, c ≠ '"' ∧ c ≠ '\n' ∧ c ≠ '\r' := by
    intro c hc
    rcases mem_joinComma hc with hcomma | ⟨f, hf, hcf⟩
    · subst hcomma; refine ⟨by decide, by decide, by decide⟩
    · exact (hchars f hf c hcf).2
  have ht : jsTrim (joinComma fields) ≠ [] := by rw [htrim]; exact hjoin
  rw [parseCSV_single_line (joinComma fields)
    (fun c hc => (hchar c hc).1) (fun c hc => (hchar c hc).2.1)
    (fun c hc => (hchar c hc).2.2) ht]
  rw [htrim, splitCommaSpec_joinComma fields hne
    (fun f hf c hc => (hchars f hf c hc).1)]

/-- Witness for the amended C8 at `["ab", "c d", "e"]`. -/
theorem parseCSV_roundtrip_witness :
    parseCSV (joinComma ["ab".toList, "c d".toList, "e".toList])
      = [["ab".toList, "c d".toList, "e".toList]] :=
  parseCSV_roundtrip ["ab".toList, "c d".toList, "e".toList]
    (by decide) (by decide) (by decide) (by decide)

/-- C9: the documented quoting example — `'"a,b","c""d"'` parses to the
single row `["a,b", "c\"d"]` — and, at the level of the character loop, a
comma inside quoted mode is accumulated literally and a doubled quote
inside quoted mode accumulates one literal quote. -/
theorem parseCSV_quoting :
    parseCSV ("\"a,b\",\"c\"\"d\"".toList) = [["a,b".toList, "c\"d".toList]] ∧
    (∀ (rest cur : Str) (row : List Str),
      parseLineAux true (',' :: rest) cur row = parseLineAux true rest (cur ++ [',']) row) ∧
    (∀ (rest cur : Str) (row : List Str),
      parseLineAux true ('"' :: '"' :: rest) cur row
        = parseLineAux true rest (cur ++ ['"']) row) :=
  ⟨by decide, fun _ _ _ => rfl, fun _ _ _ => rfl⟩

/-! ## Today-detector lemmas -/

theorem subjHasDate_iff {s : Subj} : subjHasDate s = true ↔ s.presentByDate ≠ [] := by
  rw [subjHasDate]
  cases s.presentByDate <;> simp

theorem subjLastPresent_imp_hasDate {s : Subj} (h : subjLastPresent s = true) :
    subjHasDate s = true := by
  rw [subjLastPresent, beq_iff_eq] at h
  rw [subjHasDate_iff]
  intro hnil
  rw [hnil] at h
  simp at h

theorem todayPresent_imp_hasDate {st : Student} (h : todayPresent st = true) :
    todayHasDate st = true := by
  rw [todayPresent, List.any_eq_true] at h
  obtain ⟨q, hq, hqp⟩ := h
  rw [todayHasDate, List.any_eq_true]
  exact ⟨q, hq, subjLastPresent_imp_hasDate hqp⟩

theorem todayLoop_eq (subs : List (Str × Subj)) :
    ∀ b, todayLoop subs b
      = (b || subs.any (fun q => subjHasDate q.2),
         subs.any (fun q => subjLastPresent q.2)) := by
  induction subs with
  | nil => intro b; simp [todayLoop]
  | cons p rest ih =>
    intro b
    obtain ⟨k, s⟩ := p
    rw [todayLoop]
    by_cases hd : 1 ≤ s.presentByDate.length
    · have hne : s.presentByDate ≠ [] := by
        intro hnil; rw [hnil] at hd; simp at hd
      have hhd : subjHasDate s = true := subjHasDate_iff.mpr hne
      obtain ⟨x, hx⟩ : ∃ x, s.presentByDate.getLast? = some x := by
        have := List.getLast?_isSome.mpr hne
        exact Option.isSome_iff_exists.mp this
      have hlastD : s.presentByDate.getLastD 0 = x := by
        rw [List.getLastD_eq_getLast?, hx]; rfl
      by_cases hone : s.presentByDate.getLastD 0 = 1
      · have hlp : subjLastPresent s = true := by
          rw [subjLastPresent, beq_iff_eq, hx]
          rw [hlastD] at hone
          rw [hone]
        rw [if_pos hd, if_pos hone]
        simp [List.any_cons, hhd, hlp]
      · have hlp : subjLastPresent s = false := by
          rw [subjLastPresent, beq_eq_false_iff_ne, hx]
          intro hcontra
          apply hone
          rw [hlastD]
          exact Option.some.inj hcontra
        rw [if_pos hd, if_neg hone, ih true]
        simp [List.any_cons, hhd, hlp]
    · have hnil : s.presentByDate = [] := by
        rcases hpd : s.presentByDate with _ | ⟨y, ys⟩
        · rfl
        · rw [hpd] at hd; exact absurd (by simp) hd
      have hhd : subjHasDate s = false := by
        rw [subjHasDate, hnil]; rfl
      have hlp : subjLastPresent s = false := by
        rw [subjLastPresent, hnil]; rfl
      rw [if_neg hd, ih b]
      simp [List.any_cons, hhd, hlp]

/-- How `classifyToday` folds over a map: each of the three counters adds
the number of students whose classification predicate holds. -/
theorem classifyFold (m : List (Str × Student)) :
    ∀ acc : TodayCounts, m.foldl (fun acc p => classifyToday acc p.2) acc
      = ⟨acc.present + m.countP (fun p => todayPresent p.2),
         acc.absent + m.countP (fun p => !(todayPresent p.2) && todayHasDate p.2),
         acc.unknown + m.countP (fun p => !(todayHasDate p.2))⟩ := by
  induction m with
  | nil => intro acc; simp [List.countP_nil]
  | cons p rest ih =>
    intro acc
    rw [List.foldl_cons, ih]
    have hclass : classifyToday acc p.2 =
        if todayHasDate p.2 = false then { acc with unknown := acc.unknown + 1 }
        else if todayPresent p.2 = true then { acc with present := acc.present + 1 }
        else { acc with absent := acc.absent + 1 } := by
      rw [classifyToday, todayLoop_eq]
      simp only [Bool.false_or]
      rfl
    rw [hclass]
    cases hHD : todayHasDate p.2
    · have hP : todayPresent p.2 = false := by
        cases hP : todayPresent p.2
        · rfl
        · rw [todayPresent_imp_hasDate hP] at hHD; exact absurd hHD (by simp)
      simp only [List.countP_cons, hHD, hP]
      simp [TodayCounts.mk.injEq]
      omega
    · cases hP : todayPresent p.2
      · simp only [List.countP_cons, hHD, hP]
        simp [TodayCounts.mk.injEq]
        omega
      · simp only [List.countP_cons, hHD, hP]
        simp [TodayCounts.mk.injEq]
        omega

/-- C5: `computeTodayCounts` classifies every student into exactly one
bucket: `present` counts the students some of whose subject records have
non-empty `presentByDate` ending in `1`; `absent` counts those with no
such record but at least one record with a date column; `unknown` counts
those all of whose records (possibly none) have empty `presentByDate`. -/
theorem computeTodayCounts_classification (m : List (Str × Student)) :
    computeTodayCounts m
      = ⟨m.countP (fun p => todayPresent p.2),
         m.countP (fun p => !(todayPresent p.2) && todayHasDate p.2),
         m.countP (fun p => !(todayHasDate p.2))⟩ := by
  rw [computeTodayCounts, classifyFold]
  simp

/-- C10: the three counters of `computeTodayCounts` partition the map:
they sum to the number of students. -/
theorem computeTodayCounts_partition (m : List (Str × Student)) :
    (computeTodayCounts m).present + (computeTodayCounts m).absent
      + (computeTodayCounts m).unknown = m.length := by
  rw [computeTodayCounts, classifyFold]
  simp only [Nat.zero_add]
  induction m with
  | nil => simp [List.countP_nil]
  | cons p rest ih =>
    simp only [List.length_cons]
    cases hHD : todayHasDate p.2
    · have hP : todayPresent p.2 = false := by
        cases hP : todayPresent p.2
        · rfl
        · rw [todayPresent_imp_hasDate hP] at hHD; exact absurd hHD (by simp)
      rw [List.countP_cons_of_neg _ rest (by simp [hP]),
        List.countP_cons_of_neg _ rest (by simp [hHD]),
        List.countP_cons_of_pos _ rest (by simp [hHD])]
      omega
    · cases hP : todayPresent p.2
      · rw [List.countP_cons_of_neg _ rest (by simp [hP]),
          List.countP_cons_of_pos _ rest (by simp [hHD, hP]),
          List.countP_cons_of_neg _ rest (by simp [hHD])]
        omega
      · rw [List.countP_cons_of_pos _ rest (by simp [hP]),
          List.countP_cons_of_neg _ rest (by simp [hHD, hP]),
          List.countP_cons_of_neg _ rest (by simp [hHD])]
        omega

/-! ## Association-list lemmas -/

theorem alookup_mem {α : Type} {k : Str} {v : α} :
    ∀ {l : List (Str × α)}, alookup k l = some v → (k, v) ∈ l := by
  intro l
  induction l with
  | nil => intro h; simp [alookup] at h
  | cons p rest ih =>
    intro h
    obtain ⟨k', w⟩ := p
    rw [alookup] at h
    by_cases hk : k' = k
    · rw [if_pos hk] at h
      subst hk
      rw [Option.some.injEq] at h
      subst h
      exact List.mem_cons_self _ _
    · rw [if_neg hk] at h
      exact List.mem_cons_of_mem _ (ih h)

theorem mem_upsert {α : Type} {k : Str} {v : α} :
    ∀ {l : List (Str × α)} {p}, p ∈ upsert k v l → p = (k, v) ∨ p ∈ l := by
  intro l
  induction l with
  | nil => intro p h; rw [upsert] at h; simpa using h
  | cons q rest ih =>
    intro p h
    obtain ⟨k', w⟩ := q
    rw [upsert] at h
    by_cases hk : k' = k
    · rw [if_pos hk] at h
      rcases List.mem_cons.mp h with h1 | h1
      · exact Or.inl h1
      · exact Or.inr (List.mem_cons_of_mem _ h1)
    · rw [if_neg hk] at h
      rcases List.mem_cons.mp h with h1 | h1
      · exact Or.inr (h1 ▸ List.mem_cons_self _ _)
      · rcases ih h1 with h2 | h2
        · exact Or.inl h2
        · exact Or.inr (List.mem_cons_of_mem _ h2)

theorem alookup_upsert_self {α : Type} (k : Str) (v : α) :
    ∀ (l : List (Str × α)), alookup k (upsert k v l) = some v := by
  intro l
  induction l with
  | nil => simp [upsert, alookup]
  | cons q rest ih =>
    obtain ⟨k', w⟩ := q
    rw [upsert]
    by_cases hk : k' = k
    · rw [if_pos hk, alookup, if_pos rfl]
    · rw [if_neg hk, alookup, if_neg hk, ih]

theorem alookup_upsert_ne {α : Type} {k k' : Str} (v : α) (hne : k' ≠ k) :
    ∀ (l : List (Str × α)), alookup k' (upsert k v l) = alookup k' l := by
  intro l
  induction l with
  | nil =>
    show alookup k' [(k, v)] = alookup k' []
    simp only [alookup]
    rw [if_neg (fun h => hne h.symm)]
  | cons q rest ih =>
    obtain ⟨k0, w⟩ := q
    rw [upsert]
    by_cases hk : k0 = k
    · rw [if_pos hk]
      show alookup k' ((k, v) :: rest) = alookup k' ((k0, w) :: rest)
      simp only [alookup]
      rw [if_neg (fun h => hne h.symm), if_neg (fun h => hne (by rw [← h, hk]))]
    · rw [if_neg hk]
      show alookup k' ((k0, w) :: upsert k v rest) = alookup k' ((k0, w) :: rest)
      simp only [alookup]
      by_cases hk' : k0 = k'
      · rw [if_pos hk', if_pos hk']
      · rw [if_neg hk', if_neg hk', ih]

theorem upsert_of_alookup_none {α : Type} {k : Str} (v : α) :
    ∀ {l : List (Str × α)}, alookup k l = none → upsert k v l = l ++ [(k, v)] := by
  intro l
  induction l with
  | nil => intro _; rfl
  | cons q rest ih =>
    intro h
    obtain ⟨k', w⟩ := q
    rw [alookup] at h
    by_cases hk : k' = k
    · rw [if_pos hk] at h; exact absurd h (by simp)
    · rw [if_neg hk] at h
      rw [upsert, if_neg hk, ih h, List.cons_append]

theorem alookup_map {α β : Type} (f : α → β) (k : Str) :
    ∀ (l : List (Str × α)),
      alookup k (l.map (fun p => (p.1, f p.2))) = (alookup k l).map f := by
  intro l
  induction l with
  | nil => rfl
  | cons q rest ih =>
    obtain ⟨k', w⟩ := q
    rw [List.map_cons, alookup, alookup]
    by_cases hk : k' = k
    · rw [if_pos hk, if_pos hk, Option.map_some']
    · rw [if_neg hk, if_neg hk, ih]

/-! ## Row-record lemmas -/

theorem mkSubjRecord_length (ch : Nat) (row : List Str) :
    (mkSubjRecord ch row).presentByDate.length = ch := by
  simp [mkSubjRecord]

theorem mkSubjRecord_present_le (ch : Nat) (row : List Str) :
    (mkSubjRecord ch row).present ≤ ch := by
  have h : (mkSubjRecord ch row).present = (mkSubjRecord ch row).presentByDate.count 1 := by
    simp [mkSubjRecord]
  rw [h]
  calc (mkSubjRecord ch row).presentByDate.count 1
      ≤ (mkSubjRecord ch row).presentByDate.length := List.count_le_length 1 _
    _ = ch := mkSubjRecord_length ch row

theorem mkSubjRecord_balance (ch : Nat) (row : List Str) :
    (mkSubjRecord ch row).present + (mkSubjRecord ch row).absent = ch := by
  have hle := mkSubjRecord_present_le ch row
  have habs : (mkSubjRecord ch row).absent = ch - (mkSubjRecord ch row).present := by
    simp [mkSubjRecord]
  omega

theorem mkSubjRecord_classesHeld (ch : Nat) (row : List Str) :
    (mkSubjRecord ch row).classesHeld = ch := by
  simp [mkSubjRecord]

/-- `resolveStudent` returns either a record with empty subjects and zero
totals (fresh student) or a record sharing `subjects` and `totals` with
a student already in the map. -/
theorem resolveStudent_cases (roll name : Str) (m : List (Str × Student)) :
    (alookup roll m = none ∧ (resolveStudent roll name m).subjects = [] ∧
      (resolveStudent roll name m).totals = freshTotals) ∨
    (∃ st, alookup roll m = some st ∧ (resolveStudent roll name m).subjects = st.subjects ∧
      (resolveStudent roll name m).totals = st.totals) := by
  cases h : alookup roll m with
  | none =>
    refine Or.inl ⟨rfl, ?_, ?_⟩ <;> simp only [resolveStudent, h]
  | some st =>
    refine Or.inr ⟨st, rfl, ?_, ?_⟩ <;> simp only [resolveStudent, h] <;> split <;> rfl

/-! ## C1: the additive invariants of `buildStudentsMap` -/

theorem processRow_invariant (subject : Str) (ch : Nat) (row : List Str)
    (m : List (Str × Student)) (h : ∀ p ∈ m, studentInvariant p.2) :
    ∀ p ∈ processRow subject ch m row, studentInvariant p.2 := by
  intro p hp
  rw [processRow] at hp
  by_cases hroll : jsTrim (row.getD 2 []) = []
  · rw [if_pos hroll] at hp
    exact h p hp
  · rw [if_neg hroll] at hp
    rcases mem_upsert hp with hnew | hold
    · subst hnew
      set st0 := resolveStudent (jsTrim (row.getD 2 [])) (jsTrim (row.getD 1 [])) m with hst0
      have hst0inv : studentInvariant st0 := by
        rcases resolveStudent_cases (jsTrim (row.getD 2 [])) (jsTrim (row.getD 1 [])) m with
          ⟨_, hsub, htot⟩ | ⟨st, hsome, hsub, htot⟩
        · constructor
          · rw [← hst0] at htot; rw [htot]; rfl
          · intro q hq
            rw [← hst0] at hsub; rw [hsub] at hq
            simp at hq
        · have := h (jsTrim (row.getD 2 []), st) (alookup_mem hsome)
          rw [← hst0] at hsub htot
          exact ⟨htot ▸ this.1, hsub ▸ this.2⟩
      constructor
      · show (st0.totals.present + (mkSubjRecord ch row).present) +
          (st0.totals.absent + (mkSubjRecord ch row).absent) =
          st0.totals.classesHeld + (mkSubjRecord ch row).classesHeld
        have h1 := hst0inv.1
        have h2 := mkSubjRecord_balance ch row
        have h3 := mkSubjRecord_classesHeld ch row
        omega
      · intro q hq
        rcases mem_upsert hq with hq1 | hq1
        · subst hq1
          exact ⟨by rw [mkSubjRecord_classesHeld]; exact mkSubjRecord_balance ch row,
            by rw [mkSubjRecord_classesHeld]; exact mkSubjRecord_length ch row⟩
        · exact hst0inv.2 q hq1
    · exact h p hold

theorem processSheet_invariant (m : List (Str × Student))
    (sheet : Str × List (List Str)) (h : ∀ p ∈ m, studentInvariant p.2) :
    ∀ p ∈ processSheet m sheet, studentInvariant p.2 := by
  rw [processSheet]
  match sheet with
  | (subject, rows) =>
    match rows with
    | [] => exact h
    | header :: dataRows =>
      show ∀ p ∈ dataRows.foldl (processRow subject (header.length - 3)) m, _
      induction dataRows generalizing m with
      | nil => exact h
      | cons row rest ih =>
        rw [List.foldl_cons]
        exact ih _ (processRow_invariant subject (header.length - 3) row m h)

/-- C1: for every student produced by `buildStudentsMap`,
`totals.present + totals.absent = totals.classesHeld`, and every stored
subject record satisfies `present + absent = classesHeld` and
`presentByDate.length = classesHeld` (also for rows with fewer cells
than the header). -/
theorem buildStudentsMap_invariant (sheets : List (Str × List (List Str))) :
    ∀ p ∈ buildStudentsMap sheets, studentInvariant p.2 := by
  have hfold : ∀ p ∈ sheets.foldl processSheet [], studentInvariant p.2 := by
    suffices hgen : ∀ (shs : List (Str × List (List Str))) (m : List (Str × Student)),
        (∀ p ∈ m, studentInvariant p.2) → ∀ p ∈ shs.foldl processSheet m, studentInvariant p.2 by
      exact hgen sheets [] (by simp)
    intro shs
    induction shs with
    | nil => intro m h; exact h
    | cons sheet rest ih =>
      intro m h
      rw [List.foldl_cons]
      exact ih _ (processSheet_invariant m sheet h)
  intro p hp
  rw [buildStudentsMap] at hp
  rcases List.mem_map.mp hp with ⟨q, hq, hpq⟩
  have hqinv := hfold q hq
  subst hpq
  show studentInvariant (finalizeStudent q.2)
  obtain ⟨h1, h2⟩ := hqinv
  exact ⟨h1, h2⟩

/-- Witness for C1 on a concrete input with a short row (one data cell
for two header date columns). -/
theorem buildStudentsMap_invariant_witness :
    (("r1".toList, finalizeStudent (Student.mk "Ann".toList "r1".toList
        [("S".toList, Subj.mk 2 1 1 [1, 0])] (Totals.mk 2 1 1 0 [])))
      ∈ buildStudentsMap [("S".toList, parseCSV "h,Name,Roll,d1,d2\n,Ann,r1,p".toList)]) ∧
    studentInvariant (finalizeStudent (Student.mk "Ann".toList "r1".toList
        [("S".toList, Subj.mk 2 1 1 [1, 0])] (Totals.mk 2 1 1 0 []))) := by
  have hfold : [("S".toList, parseCSV "h,Name,Roll,d1,d2\n,Ann,r1,p".toList)].foldl
        processSheet []
      = [("r1".toList, Student.mk "Ann".toList "r1".toList
          [("S".toList, Subj.mk 2 1 1 [1, 0])] (Totals.mk 2 1 1 0 []))] := by decide
  have hmem : ("r1".toList, finalizeStudent (Student.mk "Ann".toList "r1".toList
        [("S".toList, Subj.mk 2 1 1 [1, 0])] (Totals.mk 2 1 1 0 [])))
      ∈ buildStudentsMap [("S".toList, parseCSV "h,Name,Roll,d1,d2\n,Ann,r1,p".toList)] := by
    rw [buildStudentsMap, hfold, List.map_cons, List.map_nil]
    exact List.mem_cons_self _ _
  exact ⟨hmem, buildStudentsMap_invariant
    [("S".toList, parseCSV "h,Name,Roll,d1,d2\n,Ann,r1,p".toList)] _ hmem⟩

/-! ## C6: percent and status -/

/-- The final pass changes only `percent` and `status`, and sets them by
the documented formulas. -/
theorem finalizeStudent_fields (st : Student) :
    (finalizeStudent st).name = st.name ∧
    (finalizeStudent st).roll = st.roll ∧
    (finalizeStudent st).subjects = st.subjects ∧
    (finalizeStudent st).totals.classesHeld = st.totals.classesHeld ∧
    (finalizeStudent st).totals.present = st.totals.present ∧
    (finalizeStudent st).totals.absent = st.totals.absent ∧
    (finalizeStudent st).totals.percent
      = (if 0 < st.totals.classesHeld
          then (st.totals.present : ℚ) / (st.totals.classesHeld : ℚ) else 0) ∧
    (finalizeStudent st).totals.status
      = (if 3 / 4 ≤ (finalizeStudent st).totals.percent
          then "Good".toList else "Needs Improvement".toList) :=
  ⟨rfl, rfl, rfl, rfl, rfl, rfl, rfl, rfl⟩

/-- C6: after `buildStudentsMap`, every student's `totals.percent` is
`present / classesHeld` (exact rational division; `0` when no classes
were held) and `totals.status` is `"Good"` exactly when
`percent ≥ 0.75` (boundary inclusive), otherwise `"Needs Improvement"`. -/
theorem buildStudentsMap_percent_status (sheets : List (Str × List (List Str))) :
    ∀ p ∈ buildStudentsMap sheets,
      p.2.totals.percent = (if 0 < p.2.totals.classesHeld
        then (p.2.totals.present : ℚ) / (p.2.totals.classesHeld : ℚ) else 0) ∧
      (p.2.totals.status = "Good".toList ↔ 3 / 4 ≤ p.2.totals.percent) ∧
      (p.2.totals.status = "Good".toList ∨
        p.2.totals.status = "Needs Improvement".toList) := by
  intro p hp
  rw [buildStudentsMap] at hp
  rcases List.mem_map.mp hp with ⟨q, _, hpq⟩
  subst hpq
  obtain ⟨-, -, -, hch, hpr, -, hpct, hstat⟩ := finalizeStudent_fields q.2
  show (finalizeStudent q.2).totals.percent
      = (if 0 < (finalizeStudent q.2).totals.classesHeld
          then ((finalizeStudent q.2).totals.present : ℚ)
            / ((finalizeStudent q.2).totals.classesHeld : ℚ) else 0) ∧
    ((finalizeStudent q.2).totals.status = "Good".toList
      ↔ 3 / 4 ≤ (finalizeStudent q.2).totals.percent) ∧
    ((finalizeStudent q.2).totals.status = "Good".toList ∨
      (finalizeStudent q.2).totals.status = "Needs Improvement".toList)
  refine ⟨?_, ?_, ?_⟩
  · rw [hch, hpr]
    exact hpct
  · rw [hstat]
    by_cases hc : (3 : ℚ) / 4 ≤ (finalizeStudent q.2).totals.percent
    · rw [if_pos hc]
      simp [hc]
    · rw [if_neg hc]
      constructor
      · intro hbad
        exact absurd hbad (by decide)
      · intro hle
        exact absurd hle hc
  · rw [hstat]
    split
    · exact Or.inl rfl
    · exact Or.inr rfl

/-- Witness for C6 at the 0.75 boundary: 3 of 4 classes attended yields
`percent = 3/4` and status `"Good"`. -/
theorem buildStudentsMap_percent_status_witness :
    (("r1".toList, finalizeStudent (Student.mk "Bob".toList "r1".toList
        [("S".toList, Subj.mk 4 3 1 [1, 1, 1, 0])] (Totals.mk 4 3 1 0 [])))
      ∈ buildStudentsMap
        [("S".toList, parseCSV "h,Name,Roll,d1,d2,d3,d4\n,Bob,r1,p,p,P,a".toList)]) ∧
    ((finalizeStudent (Student.mk "Bob".toList "r1".toList
        [("S".toList, Subj.mk 4 3 1 [1, 1, 1, 0])]
        (Totals.mk 4 3 1 0 []))).totals.status = "Good".toList ↔
      3 / 4 ≤ (finalizeStudent (Student.mk "Bob".toList "r1".toList
        [("S".toList, Subj.mk 4 3 1 [1, 1, 1, 0])]
        (Totals.mk 4 3 1 0 []))).totals.percent) ∧
    (finalizeStudent (Student.mk "Bob".toList "r1".toList
        [("S".toList, Subj.mk 4 3 1 [1, 1, 1, 0])]
        (Totals.mk 4 3 1 0 []))).totals.status = "Good".toList ∧
    (finalizeStudent (Student.mk "Bob".toList "r1".toList
        [("S".toList, Subj.mk 4 3 1 [1, 1, 1, 0])]
        (Totals.mk 4 3 1 0 []))).totals.percent = 3 / 4 := by
  have hfold : [("S".toList,
        parseCSV "h,Name,Roll,d1,d2,d3,d4\n,Bob,r1,p,p,P,a".toList)].foldl processSheet []
      = [("r1".toList, Student.mk "Bob".toList "r1".toList
          [("S".toList, Subj.mk 4 3 1 [1, 1, 1, 0])] (Totals.mk 4 3 1 0 []))] := by decide
  have hmem : ("r1".toList, finalizeStudent (Student.mk "Bob".toList "r1".toList
        [("S".toList, Subj.mk 4 3 1 [1, 1, 1, 0])] (Totals.mk 4 3 1 0 [])))
      ∈ buildStudentsMap
        [("S".toList, parseCSV "h,Name,Roll,d1,d2,d3,d4\n,Bob,r1,p,p,P,a".toList)] := by
    rw [buildStudentsMap, hfold, List.map_cons, List.map_nil]
    exact List.mem_cons_self _ _
  have hpct : (finalizeStudent (Student.mk "Bob".toList "r1".toList
      [("S".toList, Subj.mk 4 3 1 [1, 1, 1, 0])]
      (Totals.mk 4 3 1 0 []))).totals.percent = 3 / 4 := by
    norm_num [finalizeStudent]
  have hstat : (finalizeStudent (Student.mk "Bob".toList "r1".toList
      [("S".toList, Subj.mk 4 3 1 [1, 1, 1, 0])]
      (Totals.mk 4 3 1 0 []))).totals.status = "Good".toList := by
    norm_num [finalizeStudent]
  exact ⟨hmem, (buildStudentsMap_percent_status
    [("S".toList, parseCSV "h,Name,Roll,d1,d2,d3,d4\n,Bob,r1,p,p,P,a".toList)]
    _ hmem).2.1, hstat, hpct⟩

/-! ## C7: rows with an empty roll are skipped -/

theorem processRow_skip (subject : Str) (ch : Nat) (row : List Str)
    (m : List (Str × Student)) (h : jsTrim (row.getD 2 []) = []) :
    processRow subject ch m row = m := by
  rw [processRow, if_pos h]

/-- C7: a data row whose trimmed roll field is empty changes nothing —
`buildStudentsMap` on any sheet list containing the row equals
`buildStudentsMap` with the row deleted. -/
theorem buildStudentsMap_skip_empty_roll
    (sheetsA sheetsB : List (Str × List (List Str))) (subject : Str)
    (header : List Str) (pre post : List (List Str)) (row : List Str)
    (h : jsTrim (row.getD 2 []) = []) :
    buildStudentsMap (sheetsA ++ (subject, header :: (pre ++ row :: post)) :: sheetsB)
      = buildStudentsMap (sheetsA ++ (subject, header :: (pre ++ post)) :: sheetsB) := by
  rw [buildStudentsMap, buildStudentsMap, List.foldl_append, List.foldl_append]
  rw [List.foldl_cons, List.foldl_cons]
  congr 2
  rw [processSheet, processSheet]
  show (pre ++ row :: post).foldl (processRow subject (header.length - 3)) _
    = (pre ++ post).foldl (processRow subject (header.length - 3)) _
  rw [List.foldl_append, List.foldl_append, List.foldl_cons,
    processRow_skip subject (header.length - 3) row _ h]

/-- Witness for C7: inserting a row with an empty roll field into a sheet
leaves the result unchanged. -/
theorem buildStudentsMap_skip_empty_roll_witness :
    buildStudentsMap [("S".toList,
        [["h".toList, "Name".toList, "Roll".toList, "d1".toList],
         [[], "x".toList, [], "p".toList],
         [[], "Ann".toList, "r1".toList, "p".toList]])]
      = buildStudentsMap [("S".toList,
          [["h".toList, "Name".toList, "Roll".toList, "d1".toList],
           [[], "Ann".toList, "r1".toList, "p".toList]])] := by
  have h := buildStudentsMap_skip_empty_roll [] [] "S".toList
    ["h".toList, "Name".toList, "Roll".toList, "d1".toList] []
    [[[], "Ann".toList, "r1".toList, "p".toList]]
    [[], "x".toList, [], "p".toList] (by decide)
  simpa using h

/-! ## C3: name resolution -/

theorem addSubjectRecord_name (subject : Str) (srec : Subj) (st : Student) :
    (addSubjectRecord subject srec st).name = st.name := rfl

theorem processRow_eq (subject : Str) (ch : Nat) (row : List Str)
    (m : List (Str × Student)) (h : jsTrim (row.getD 2 []) ≠ []) :
    processRow subject ch m row
      = upsert (jsTrim (row.getD 2 []))
          (addSubjectRecord subject (mkSubjRecord ch row)
            (resolveStudent (jsTrim (row.getD 2 [])) (jsTrim (row.getD 1 [])) m)) m := by
  rw [processRow, if_neg h]

theorem resolveStudent_name_none (roll name : Str) (m : List (Str × Student))
    (h : alookup roll m = none) :
    (resolveStudent roll name m).name
      = (if name = [] then "Unknown".toList else name) := by
  simp only [resolveStudent, h]

theorem resolveStudent_name_some (roll name : Str) (m : List (Str × Student))
    (st : Student) (h : alookup roll m = some st) (hne : st.name ≠ []) :
    (resolveStudent roll name m).name = st.name := by
  simp only [resolveStudent, h]
  rw [if_neg (fun hc => hne hc.1)]

theorem processRow_names (subject : Str) (ch : Nat) (row : List Str)
    (m : List (Str × Student)) (h : ∀ p ∈ m, p.2.name ≠ []) :
    ∀ p ∈ processRow subject ch m row, p.2.name ≠ [] := by
  intro p hp
  by_cases hroll : jsTrim (row.getD 2 []) = []
  · rw [processRow, if_pos hroll] at hp
    exact h p hp
  · rw [processRow_eq subject ch row m hroll] at hp
    rcases mem_upsert hp with hnew | hold
    · subst hnew
      rw [addSubjectRecord_name]
      cases halook : alookup (jsTrim (row.getD 2 [])) m with
      | none =>
        rw [resolveStudent_name_none (jsTrim (row.getD 2 [])) (jsTrim (row.getD 1 [])) m
          halook]
        split
        · simp
        · assumption
      | some st =>
        rw [resolveStudent_name_some _ _ m st halook
          (h (jsTrim (row.getD 2 []), st) (alookup_mem halook))]
        exact h (jsTrim (row.getD 2 []), st) (alookup_mem halook)
    · exact h p hold

theorem foldRows_names (subject : Str) (ch : Nat) :
    ∀ (rs : List (List Str)) (m : List (Str × Student)),
      (∀ p ∈ m, p.2.name ≠ []) →
      ∀ p ∈ rs.foldl (processRow subject ch) m, p.2.name ≠ [] := by
  intro rs
  induction rs with
  | nil => intro m h; exact h
  | cons row rest ih =>
    intro m h
    rw [List.foldl_cons]
    exact ih _ (processRow_names subject ch row m h)

theorem processSheet_names (m : List (Str × Student)) (sheet : Str × List (List Str))
    (h : ∀ p ∈ m, p.2.name ≠ []) :
    ∀ p ∈ processSheet m sheet, p.2.name ≠ [] := by
  rw [processSheet]
  match sheet with
  | (subject, rows) =>
    match rows with
    | [] => exact h
    | header :: dataRows => exact foldRows_names subject (header.length - 3) dataRows m h

theorem alookup_upsert_none {α : Type} {k k' : Str} {v : α} {l : List (Str × α)}
    (h : alookup k' (upsert k v l) = none) : alookup k' l = none := by
  by_cases hk : k' = k
  · subst hk
    rw [alookup_upsert_self] at h
    exact absurd h (by simp)
  · rw [alookup_upsert_ne v hk] at h
    exact h

theorem alookup_processRow_none {subject : Str} {ch : Nat} {row : List Str}
    {m : List (Str × Student)} {r : Str}
    (h : alookup r (processRow subject ch m row) = none) : alookup r m = none := by
  by_cases hroll : jsTrim (row.getD 2 []) = []
  · rw [processRow, if_pos hroll] at h
    exact h
  · rw [processRow_eq subject ch row m hroll] at h
    exact alookup_upsert_none h

theorem alookup_foldRows_none (subject : Str) (ch : Nat) :
    ∀ (rs : List (List Str)) (m : List (Str × Student)) (r : Str),
      alookup r (rs.foldl (processRow subject ch) m) = none → alookup r m = none := by
  intro rs
  induction rs with
  | nil => intro m r h; exact h
  | cons row rest ih =>
    intro m r h
    rw [List.foldl_cons] at h
    exact alookup_processRow_none (ih _ r h)

theorem firstNameInRows_found (subject : Str) (ch : Nat) :
    ∀ (rs : List (List Str)) (m : List (Str × Student)) (r : Str) (n : Str),
      r ≠ [] → firstNameInRows r rs = some n →
      alookup r (rs.foldl (processRow subject ch) m) ≠ none := by
  intro rs
  induction rs with
  | nil => intro m r n _ h; simp [firstNameInRows] at h
  | cons row rest ih =>
    intro m r n hr h hcontra
    rw [firstNameInRows] at h
    rw [List.foldl_cons] at hcontra
    by_cases hrr : jsTrim (row.getD 2 []) = r
    · have hne : jsTrim (row.getD 2 []) ≠ [] := by rw [hrr]; exact hr
      have hm := alookup_foldRows_none subject ch rest _ r hcontra
      rw [processRow_eq subject ch row m hne, hrr, alookup_upsert_self] at hm
      exact absurd hm (by simp)
    · rw [if_neg hrr] at h
      exact ih _ r n hr h hcontra

theorem foldRows_name (subject : Str) (ch : Nat) :
    ∀ (rs : List (List Str)) (m : List (Str × Student)) (r : Str) (st : Student),
      r ≠ [] → (∀ p ∈ m, p.2.name ≠ []) →
      alookup r (rs.foldl (processRow subject ch) m) = some st →
      (∃ st0, alookup r m = some st0 ∧ st.name = st0.name) ∨
      (alookup r m = none ∧ firstNameInRows r rs = some st.name) := by
  intro rs
  induction rs with
  | nil =>
    intro m r st _ _ h
    exact Or.inl ⟨st, h, rfl⟩
  | cons row rest ih =>
    intro m r st hr hnames h
    rw [List.foldl_cons] at h
    have hnames' := processRow_names subject ch row m hnames
    rcases ih _ r st hr hnames' h with ⟨st0, hl, hn⟩ | ⟨hnone, hfirst⟩
    · by_cases hroll : jsTrim (row.getD 2 []) = []
      · rw [processRow, if_pos hroll] at hl
        refine Or.inl ⟨st0, hl, hn⟩
      · by_cases hrr : jsTrim (row.getD 2 []) = r
        · rw [processRow_eq subject ch row m hroll, hrr, alookup_upsert_self] at hl
          rw [Option.some.injEq] at hl
          cases halook : alookup r m with
          | none =>
            refine Or.inr ⟨rfl, ?_⟩
            rw [firstNameInRows, if_pos hrr]
            have hname0 : st0.name = rowName row := by
              rw [← hl, addSubjectRecord_name, rowName]
              exact resolveStudent_name_none r (jsTrim (row.getD 1 [])) m halook
            rw [hn, hname0]
          | some stm =>
            refine Or.inl ⟨stm, rfl, ?_⟩
            have hname0 : st0.name = stm.name := by
              rw [← hl, addSubjectRecord_name]
              exact resolveStudent_name_some r (jsTrim (row.getD 1 [])) m stm halook
                (hnames (r, stm) (alookup_mem halook))
            rw [hn, hname0]
        · rw [processRow_eq subject ch row m hroll,
            alookup_upsert_ne _ (fun hx => hrr hx.symm)] at hl
          exact Or.inl ⟨st0, hl, hn⟩
    · by_cases hroll : jsTrim (row.getD 2 []) = []
      · rw [processRow, if_pos hroll] at hnone
        refine Or.inr ⟨hnone, ?_⟩
        rw [firstNameInRows, if_neg (by rw [hroll]; exact fun hx => hr hx.symm)]
        exact hfirst
      · by_cases hrr : jsTrim (row.getD 2 []) = r
        · rw [processRow_eq subject ch row m hroll, hrr, alookup_upsert_self] at hnone
          exact absurd hnone (by simp)
        · rw [processRow_eq subject ch row m hroll,
            alookup_upsert_ne _ (fun hx => hrr hx.symm)] at hnone
          refine Or.inr ⟨hnone, ?_⟩
          rw [firstNameInRows, if_neg hrr]
          exact hfirst

theorem foldSheets_name :
    ∀ (shs : List (Str × List (List Str))) (m : List (Str × Student)) (r : Str)
      (st : Student),
      r ≠ [] → (∀ p ∈ m, p.2.name ≠ []) →
      alookup r (shs.foldl processSheet m) = some st →
      (∃ st0, alookup r m = some st0 ∧ st.name = st0.name) ∨
      (alookup r m = none ∧ firstNameInSheets r shs = some st.name) := by
  intro shs
  induction shs with
  | nil =>
    intro m r st _ _ h
    exact Or.inl ⟨st, h, rfl⟩
  | cons sh rest ih =>
    intro m r st hr hnames h
    rw [List.foldl_cons] at h
    have hnames1 := processSheet_names m sh hnames
    obtain ⟨subject, rows⟩ := sh
    cases rows with
    | nil =>
      have hps : processSheet m (subject, ([] : List (List Str))) = m := rfl
      rw [hps] at h hnames1
      have hfs : firstNameInSheets r ((subject, ([] : List (List Str))) :: rest)
          = firstNameInSheets r rest := rfl
      rcases ih m r st hr hnames h with ⟨st1, hl1, hn1⟩ | ⟨hnone1, hfirst⟩
      · exact Or.inl ⟨st1, hl1, hn1⟩
      · exact Or.inr ⟨hnone1, by rw [hfs]; exact hfirst⟩
    | cons header dataRows =>
      have hps : processSheet m (subject, header :: dataRows)
          = dataRows.foldl (processRow subject (header.length - 3)) m := rfl
      rw [hps] at h hnames1
      have hfs : firstNameInSheets r ((subject, header :: dataRows) :: rest)
          = (match firstNameInRows r dataRows with
             | some n => some n
             | none => firstNameInSheets r rest) := rfl
      rcases ih _ r st hr hnames1 h with ⟨st1, hl1, hn1⟩ | ⟨hnone1, hfirst⟩
      · rcases foldRows_name subject (header.length - 3) dataRows m r st1 hr hnames hl1
          with ⟨st0, hl0, hn0⟩ | ⟨hnone0, hfirst0⟩
        · exact Or.inl ⟨st0, hl0, by rw [hn1, hn0]⟩
        · refine Or.inr ⟨hnone0, ?_⟩
          rw [hfs, hfirst0, hn1]
      · have hm := alookup_foldRows_none subject (header.length - 3) dataRows m r hnone1
        refine Or.inr ⟨hm, ?_⟩
        have hfr : firstNameInRows r dataRows = none := by
          cases hfrc : firstNameInRows r dataRows with
          | none => rfl
          | some n =>
            exact absurd hnone1
              (firstNameInRows_found subject (header.length - 3) dataRows m r n hr hfrc)
        rw [hfs, hfr]
        exact hfirst

/-- C3 (amended): the student's final name is the one carried by the
first data row (sheets in processing order) whose trimmed roll equals the
student's roll — the trimmed field at index 1, defaulting to `"Unknown"`
when empty.  The name is never changed afterwards: because a stored name
is always non-empty (`"Unknown"` included), the refresh branch of line
106 never fires, so a later row's non-empty name does NOT replace an
earlier defaulted one. -/
theorem buildStudentsMap_first_name (sheets : List (Str × List (List Str)))
    (r : Str) (st : Student) (hr : r ≠ [])
    (h : alookup r (buildStudentsMap sheets) = some st) :
    firstNameInSheets r sheets = some st.name := by
  rw [buildStudentsMap, alookup_map] at h
  cases hfold : alookup r (sheets.foldl processSheet []) with
  | none =>
    rw [hfold] at h
    exact absurd h (by simp)
  | some st0 =>
    rw [hfold, Option.map_some'] at h
    have hst : st = finalizeStudent st0 := (Option.some.inj h).symm
    rcases foldSheets_name sheets [] r st0 hr (by simp) hfold with
      ⟨st1, hl, _⟩ | ⟨_, hfirst⟩
    · simp [alookup] at hl
    · rw [hst]
      have hname : (finalizeStudent st0).name = st0.name := (finalizeStudent_fields st0).1
      rw [hname]
      exact hfirst

/-- Witness for the amended C3: with a first row carrying an empty name
and a second row carrying `"Alice"` for the same roll, the final name is
the first row's defaulted `"Unknown"`. -/
theorem buildStudentsMap_first_name_witness :
    ("r1".toList ≠ ([] : Str)) ∧
    firstNameInSheets "r1".toList
        [("S".toList, parseCSV "h,Name,Roll,d1\n,,r1,p\n,Alice,r1,p".toList)]
      = some "Unknown".toList := by
  have hfold : [("S".toList,
        parseCSV "h,Name,Roll,d1\n,,r1,p\n,Alice,r1,p".toList)].foldl processSheet []
      = [("r1".toList, Student.mk "Unknown".toList "r1".toList
          [("S".toList, Subj.mk 1 1 0 [1])] (Totals.mk 2 2 0 0 []))] := by decide
  have halook : alookup "r1".toList (buildStudentsMap
        [("S".toList, parseCSV "h,Name,Roll,d1\n,,r1,p\n,Alice,r1,p".toList)])
      = some (finalizeStudent (Student.mk "Unknown".toList "r1".toList
          [("S".toList, Subj.mk 1 1 0 [1])] (Totals.mk 2 2 0 0 []))) := by
    rw [buildStudentsMap, hfold, List.map_cons, List.map_nil]
    simp [alookup]
  have hmain := buildStudentsMap_first_name
    [("S".toList, parseCSV "h,Name,Roll,d1\n,,r1,p\n,Alice,r1,p".toList)]
    "r1".toList
    (finalizeStudent (Student.mk "Unknown".toList "r1".toList
      [("S".toList, Subj.mk 1 1 0 [1])] (Totals.mk 2 2 0 0 [])))
    (by decide) halook
  exact ⟨by decide, hmain⟩

/-- C3 as stated is false: a later row with the non-empty name `"Alice"`
does not replace the earlier defaulted `"Unknown"` for the same roll,
because the stored name `"Unknown"` is non-empty and line 106's refresh
condition never fires. -/
theorem buildStudentsMap_name_not_replaced :
    ((buildStudentsMap
        [("S".toList, parseCSV "h,Name,Roll,d1\n,,r1,p\n,Alice,r1,p".toList)]).map
        (fun p => p.2.name) = ["Unknown".toList]) ∧
    ((buildStudentsMap
        [("S".toList, parseCSV "h,Name,Roll,d1\n,,r1,p\n,Alice,r1,p".toList)]).map
        (fun p => p.2.name) ≠ ["Alice".toList]) := by
  refine ⟨?_, ?_⟩ <;> decide

/-! ## C2: totals versus the final subjects mapping -/

theorem rowRolls_cons_empty (row : List Str) (rs : List (List Str))
    (h : jsTrim (row.getD 2 []) = []) : rowRolls (row :: rs) = rowRolls rs := by
  rw [rowRolls, rowRolls]
  simp only [List.filterMap_cons]
  rw [if_pos h]

theorem rowRolls_cons_some (row : List Str) (rs : List (List Str))
    (h : jsTrim (row.getD 2 []) ≠ []) :
    rowRolls (row :: rs) = jsTrim (row.getD 2 []) :: rowRolls rs := by
  rw [rowRolls, rowRolls]
  simp only [List.filterMap_cons]
  rw [if_neg h]

theorem subjectsClassesHeldSum_append (l : List (Str × Subj)) (k : Str) (srec : Subj) :
    subjectsClassesHeldSum (l ++ [(k, srec)])
      = subjectsClassesHeldSum l + srec.classesHeld := by
  rw [subjectsClassesHeldSum, subjectsClassesHeldSum, List.map_append, List.sum_append]
  rfl

theorem subjectsPresentSum_append (l : List (Str × Subj)) (k : Str) (srec : Subj) :
    subjectsPresentSum (l ++ [(k, srec)]) = subjectsPresentSum l + srec.present := by
  rw [subjectsPresentSum, subjectsPresentSum, List.map_append, List.sum_append]
  rfl

theorem subjectsAbsentSum_append (l : List (Str × Subj)) (k : Str) (srec : Subj) :
    subjectsAbsentSum (l ++ [(k, srec)]) = subjectsAbsentSum l + srec.absent := by
  rw [subjectsAbsentSum, subjectsAbsentSum, List.map_append, List.sum_append]
  rfl

theorem addSubjectRecord_totals (subject : Str) (srec : Subj) (st : Student) :
    (addSubjectRecord subject srec st).totals.classesHeld
        = st.totals.classesHeld + srec.classesHeld ∧
    (addSubjectRecord subject srec st).totals.present
        = st.totals.present + srec.present ∧
    (addSubjectRecord subject srec st).totals.absent
        = st.totals.absent + srec.absent ∧
    (addSubjectRecord subject srec st).subjects = upsert subject srec st.subjects :=
  ⟨rfl, rfl, rfl, rfl⟩

/-- Adding a record for a subject the student does not yet have preserves
the totals-equal-sums property. -/
theorem addSubjectRecord_matches (subject : Str) (srec : Subj) (st : Student)
    (hfree : alookup subject st.subjects = none)
    (h : totalsMatchSubjects st) :
    totalsMatchSubjects (addSubjectRecord subject srec st) := by
  obtain ⟨hch, hpr, hab, hsub⟩ := addSubjectRecord_totals subject srec st
  obtain ⟨h1, h2, h3⟩ := h
  refine ⟨?_, ?_, ?_⟩
  · rw [hch, hsub, upsert_of_alookup_none srec hfree, subjectsClassesHeldSum_append, h1]
  · rw [hpr, hsub, upsert_of_alookup_none srec hfree, subjectsPresentSum_append, h2]
  · rw [hab, hsub, upsert_of_alookup_none srec hfree, subjectsAbsentSum_append, h3]

theorem freshTotals_matches (roll name : Str) :
    totalsMatchSubjects (Student.mk (if name = [] then "Unknown".toList else name)
      roll [] freshTotals) :=
  ⟨rfl, rfl, rfl⟩

theorem foldRows_keys (subject : Str) (ch : Nat) (P : Str → Prop) (hPs : P subject) :
    ∀ (rs : List (List Str)) (m : List (Str × Student)),
      (∀ p ∈ m, ∀ q ∈ p.2.subjects, P q.1) →
      ∀ p ∈ rs.foldl (processRow subject ch) m, ∀ q ∈ p.2.subjects, P q.1 := by
  intro rs
  induction rs with
  | nil => intro m h; exact h
  | cons row rs' ih =>
    intro m h
    rw [List.foldl_cons]
    apply ih
    intro p hp q hq
    by_cases hroll : jsTrim (row.getD 2 []) = []
    · rw [processRow, if_pos hroll] at hp
      exact h p hp q hq
    · rw [processRow_eq subject ch row m hroll] at hp
      rcases mem_upsert hp with hnew | hold
      · subst hnew
        rcases mem_upsert hq with hq1 | hq1
        · rw [hq1]
          exact hPs
        · rcases resolveStudent_cases (jsTrim (row.getD 2 [])) (jsTrim (row.getD 1 [])) m
            with ⟨_, hsub, _⟩ | ⟨stm, hsome, hsub, _⟩
          · rw [hsub] at hq1
            simp at hq1
          · rw [hsub] at hq1
            exact h (jsTrim (row.getD 2 []), stm) (alookup_mem hsome) q hq1
      · exact h p hold q hq

theorem foldRows_sums (subject : Str) (ch : Nat) :
    ∀ (rs : List (List Str)) (m : List (Str × Student)),
      (rowRolls rs).Nodup →
      (∀ p ∈ m, totalsMatchSubjects p.2) →
      (∀ p ∈ m, alookup subject p.2.subjects = none ∨ p.1 ∉ rowRolls rs) →
      ∀ p ∈ rs.foldl (processRow subject ch) m, totalsMatchSubjects p.2 := by
  intro rs
  induction rs with
  | nil => intro m _ h2 _; exact h2
  | cons row rs' ih =>
    intro m hnodup h2 h3
    rw [List.foldl_cons]
    by_cases hroll : jsTrim (row.getD 2 []) = []
    · rw [processRow, if_pos hroll]
      rw [rowRolls_cons_empty row rs' hroll] at hnodup h3
      exact ih m hnodup h2 h3
    · rw [rowRolls_cons_some row rs' hroll] at hnodup h3
      have hhead : jsTrim (row.getD 2 []) ∉ rowRolls rs' := (List.nodup_cons.mp hnodup).1
      have hnodup' : (rowRolls rs').Nodup := (List.nodup_cons.mp hnodup).2
      rw [processRow_eq subject ch row m hroll]
      have hst1 : totalsMatchSubjects (addSubjectRecord subject (mkSubjRecord ch row)
          (resolveStudent (jsTrim (row.getD 2 [])) (jsTrim (row.getD 1 [])) m)) := by
        rcases resolveStudent_cases (jsTrim (row.getD 2 [])) (jsTrim (row.getD 1 [])) m
          with ⟨hnone, hsub, htot⟩ | ⟨stm, hsome, hsub, htot⟩
        · apply addSubjectRecord_matches
          · rw [hsub]
            rfl
          · exact ⟨by rw [htot, hsub]; rfl, by rw [htot, hsub]; rfl, by rw [htot, hsub]; rfl⟩
        · have hmm : (jsTrim (row.getD 2 []), stm) ∈ m := alookup_mem hsome
          have hstm := h2 _ hmm
          have hfree : alookup subject stm.subjects = none := by
            rcases h3 _ hmm with hl | hr
            · exact hl
            · exact absurd (List.mem_cons_self _ _) hr
          apply addSubjectRecord_matches
          · rw [hsub]
            exact hfree
          · exact ⟨by rw [htot, hsub]; exact hstm.1, by rw [htot, hsub]; exact hstm.2.1,
              by rw [htot, hsub]; exact hstm.2.2⟩
      apply ih _ hnodup'
      · intro p hp
        rcases mem_upsert hp with hnew | hold
        · rw [hnew]
          exact hst1
        · exact h2 p hold
      · intro p hp
        rcases mem_upsert hp with hnew | hold
        · right
          rw [hnew]
          exact hhead
        · rcases h3 p hold with hl | hr
          · exact Or.inl hl
          · exact Or.inr (fun hx => hr (List.mem_cons_of_mem _ hx))

theorem foldSheets_sums :
    ∀ (shs : List (Str × List (List Str))) (m : List (Str × Student)) (D : Str → Prop),
      (shs.map (fun sh => sh.1)).Nodup →
      (∀ sh ∈ shs, (dataRolls sh.2).Nodup) →
      (∀ sh ∈ shs, ¬ D sh.1) →
      (∀ p ∈ m, totalsMatchSubjects p.2) →
      (∀ p ∈ m, ∀ q ∈ p.2.subjects, D q.1) →
      ∀ p ∈ shs.foldl processSheet m, totalsMatchSubjects p.2 := by
  intro shs
  induction shs with
  | nil => intro m D _ _ _ h4 _; exact h4
  | cons sh rest ih =>
    intro m D hnodup hrolls hD h4 h5
    rw [List.foldl_cons]
    obtain ⟨subject, rows⟩ := sh
    have hsubnotin : subject ∉ rest.map (fun sh => sh.1) :=
      (List.nodup_cons.mp (by simpa using hnodup)).1
    have hnodup' : (rest.map (fun sh => sh.1)).Nodup :=
      (List.nodup_cons.mp (by simpa using hnodup)).2
    cases rows with
    | nil =>
      have hps : processSheet m (subject, ([] : List (List Str))) = m := rfl
      rw [hps]
      exact ih m D hnodup' (fun s hs => hrolls s (List.mem_cons_of_mem _ hs))
        (fun s hs => hD s (List.mem_cons_of_mem _ hs)) h4 h5
    | cons header dataRows =>
      have hps : processSheet m (subject, header :: dataRows)
          = dataRows.foldl (processRow subject (header.length - 3)) m := rfl
      rw [hps]
      have hdr : (rowRolls dataRows).Nodup :=
        hrolls (subject, header :: dataRows) (List.mem_cons_self _ _)
      have hfree : ∀ p ∈ m,
          alookup subject p.2.subjects = none ∨ p.1 ∉ rowRolls dataRows := by
        intro p hp
        left
        cases hal : alookup subject p.2.subjects with
        | none => rfl
        | some v =>
          have hkey := h5 p hp (subject, v) (alookup_mem hal)
          exact absurd hkey (hD (subject, header :: dataRows) (List.mem_cons_self _ _))
      have h4' := foldRows_sums subject (header.length - 3) dataRows m hdr h4 hfree
      have h5' := foldRows_keys subject (header.length - 3)
        (fun k => D k ∨ k = subject) (Or.inr rfl) dataRows m
        (fun p hp q hq => Or.inl (h5 p hp q hq))
      apply ih _ (fun k => D k ∨ k = subject) hnodup'
        (fun s hs => hrolls s (List.mem_cons_of_mem _ hs)) ?_ h4' h5'
      intro s hs hDs
      rcases hDs with hL | hR
      · exact hD s (List.mem_cons_of_mem _ hs) hL
      · apply hsubnotin
        rw [← hR]
        exact List.mem_map_of_mem (fun sh => sh.1) hs

/-- C2 as stated is false: with two data rows sharing the same roll in
one sheet, the totals are accumulated once per row while the per-subject
record is overwritten, so `totals.classesHeld` is `2` while the sum of
`classesHeld` over the final subjects mapping is `1`. -/
theorem buildStudentsMap_totals_double_count :
    ((buildStudentsMap
        [("S".toList, parseCSV "h,Name,Roll,d1\n,Ann,r1,p\n,Ann,r1,p".toList)]).map
        (fun p => (p.2.totals.classesHeld, subjectsClassesHeldSum p.2.subjects))
      = [(2, 1)]) ∧ (2 : Nat) ≠ 1 := by
  refine ⟨?_, ?_⟩ <;> decide

/-- C2 (amended): provided no sheet contains two data rows with the same
non-empty trimmed roll, and no two sheets carry the same subject name,
each of `totals.classesHeld`, `totals.present` and `totals.absent` equals
the sum of the corresponding field over the student's final subjects
mapping.  With duplicate rolls in one sheet the totals double-count (see
the counterexample). -/
theorem buildStudentsMap_totals_sums (sheets : List (Str × List (List Str)))
    (hsub : (sheets.map (fun sh => sh.1)).Nodup)
    (hrolls : ∀ sh ∈ sheets, (dataRolls sh.2).Nodup) :
    ∀ p ∈ buildStudentsMap sheets, totalsMatchSubjects p.2 := by
  intro p hp
  rw [buildStudentsMap] at hp
  rcases List.mem_map.mp hp with ⟨q, hq, hpq⟩
  subst hpq
  have hfold := foldSheets_sums sheets [] (fun _ => False) hsub hrolls
    (fun _ _ h => h) (fun p hp => absurd hp (List.not_mem_nil p))
    (fun p hp => absurd hp (List.not_mem_nil p)) q hq
  show totalsMatchSubjects (finalizeStudent q.2)
  obtain ⟨h1, h2, h3⟩ := hfold
  obtain ⟨-, -, hsubj, hch, hpr, hab, -, -⟩ := finalizeStudent_fields q.2
  exact ⟨by rw [hch, hsubj]; exact h1, by rw [hpr, hsubj]; exact h2,
    by rw [hab, hsubj]; exact h3⟩

/-- Witness for the amended C2: two sheets with distinct subjects and one
row each for roll `r1`; the totals equal the sums over the two stored
subject records. -/
theorem buildStudentsMap_totals_sums_witness :
    (([("A".toList, parseCSV "h,Name,Roll,d1\n,Ann,r1,p".toList),
        ("B".toList, parseCSV "h,Name,Roll,d1\n,Ann,r1,a".toList)].map
        (fun sh => sh.1)).Nodup) ∧
    (∀ sh ∈ [("A".toList, parseCSV "h,Name,Roll,d1\n,Ann,r1,p".toList),
        ("B".toList, parseCSV "h,Name,Roll,d1\n,Ann,r1,a".toList)],
      (dataRolls sh.2).Nodup) ∧
    totalsMatchSubjects (finalizeStudent (Student.mk "Ann".toList "r1".toList
      [("A".toList, Subj.mk 1 1 0 [1]), ("B".toList, Subj.mk 1 0 1 [0])]
      (Totals.mk 2 1 1 0 []))) := by
  have hfold : [("A".toList, parseCSV "h,Name,Roll,d1\n,Ann,r1,p".toList),
        ("B".toList, parseCSV "h,Name,Roll,d1\n,Ann,r1,a".toList)].foldl processSheet []
      = [("r1".toList, Student.mk "Ann".toList "r1".toList
          [("A".toList, Subj.mk 1 1 0 [1]), ("B".toList, Subj.mk 1 0 1 [0])]
          (Totals.mk 2 1 1 0 []))] := by decide
  have hmem : ("r1".toList, finalizeStudent (Student.mk "Ann".toList "r1".toList
        [("A".toList, Subj.mk 1 1 0 [1]), ("B".toList, Subj.mk 1 0 1 [0])]
        (Totals.mk 2 1 1 0 [])))
      ∈ buildStudentsMap [("A".toList, parseCSV "h,Name,Roll,d1\n,Ann,r1,p".toList),
          ("B".toList, parseCSV "h,Name,Roll,d1\n,Ann,r1,a".toList)] := by
    rw [buildStudentsMap, hfold, List.map_cons, List.map_nil]
    exact List.mem_cons_self _ _
  exact ⟨by decide, by decide,
    buildStudentsMap_totals_sums
      [("A".toList, parseCSV "h,Name,Roll,d1\n,Ann,r1,p".toList),
        ("B".toList, parseCSV "h,Name,Roll,d1\n,Ann,r1,a".toList)]
      (by decide) (by decide) _ hmem⟩

end Attendance
